import Mathlib

/-!
Verification of the currency_rs SQLite storage adapter (`src/diesel2.rs`)
against its natural-language specification.

The adapter itself (the `ToSql`/`FromSql` pair) is embedded from the source.
The `Currency` value type and the engine's primitive f64 column codec are
external to the given source tree, so they are modelled from the spec.

A 64-bit float is modelled as either a finite value (carried exactly as a
rational, since every claim treats the float as an opaque passed-through
datum or as a decimal quantity being rounded) or one of the non-finite
IEEE values (NaN, +Inf, -Inf).
-/

/-- A 64-bit floating-point value: a finite magnitude (modelled exactly as a
rational) or one of the non-finite IEEE values. -/
inductive F64 where
  | finite (q : ℚ)
  | nan
  | inf
  | neginf
deriving DecidableEq, Repr

/-- Modelled from the spec: the Currency value type. Attributes: `value`
(64-bit floating magnitude) and a `scale` (number of fractional digits for
rounding/display). -/
structure Currency where
  value : F64
  scale : Nat
deriving DecidableEq, Repr

/-- Modelled from the spec: `new_float(raw, scale)` constructs a Currency
from any floating input and an optional scale; when the scale is omitted
the default 2 is used. No validation, no error path. -/
def Currency.new_float (raw : F64) (scale : Option Nat) : Currency :=
  { value := raw, scale := scale.getD 2 }

/-- Round half away from zero to the nearest integer. -/
def roundHalfAwayFromZero (q : ℚ) : Int :=
  if 0 ≤ q then ⌊q + 1 / 2⌋ else -⌊-q + 1 / 2⌋

/-- The character for a single decimal digit `d < 10`. -/
def digitChar (d : Nat) : Char :=
  Char.ofNat (48 + d)

/-- Decimal digits of `n`, most significant first, with explicit fuel so the
recursion is structural. `fuel = n + 1` always suffices. -/
def natToDigitsAux : Nat → Nat → List Char
  | 0, _ => []
  | fuel + 1, n =>
      if n < 10 then [digitChar n]
      else natToDigitsAux fuel (n / 10) ++ [digitChar (n % 10)]

/-- Decimal digits of `n`, most significant first. -/
def natToDigits (n : Nat) : List Char :=
  natToDigitsAux (n + 1) n

/-- The `s` fractional digits of a fractional part `f` (with `f < 10 ^ s`),
most significant first, zero padded to exactly `s` characters. -/
def fracDigitsList (f s : Nat) : List Char :=
  (List.range s).map (fun i => digitChar (f / 10 ^ (s - 1 - i) % 10))

/-- Modelled from the spec: the character list of the textual rendering of a
finite Currency magnitude `q` at scale `s`: round `q * 10 ^ s` half away
from zero, then print sign, integer part, a decimal point, and exactly `s`
fractional digits. -/
def Currency.renderFinite (q : ℚ) (s : Nat) : List Char :=
  let scaled := roundHalfAwayFromZero (q * 10 ^ s)
  let n := scaled.natAbs
  (if scaled < 0 then ['-'] else []) ++
    natToDigits (n / 10 ^ s) ++ '.' :: fracDigitsList (n % 10 ^ s) s

/-- Modelled from the spec: `to_string` renders a Currency by rounding its
value to the instance's scale (half away from zero) and printing exactly
`scale` fractional digits with a leading `-` for negative amounts. The
spec leaves non-finite values an open question; arbitrary renderings are
chosen for them here (no claim depends on them). -/
def Currency.to_string (c : Currency) : String :=
  match c.value with
  | .finite q => String.mk (Currency.renderFinite q c.scale)
  | .nan => "NaN"
  | .inf => "inf"
  | .neginf => "-inf"

/-- An engine-side SQLite column value as seen by the adapter: SQL NULL, a
native double-precision value, or raw content that is not a double (the
engine's decoder fails on it with a description of the mismatch). -/
inductive SqliteValue where
  | null
  | double (v : F64)
  | other (desc : String)
deriving DecidableEq, Repr

/-- Modelled from the spec: the engine's primitive decoder
`<f64 as FromSql<Double, Sqlite>>::from_sql`: yields the stored double, or
fails (malformed bytes / type mismatch / unexpected NULL at a non-nullable
site). -/
def f64_from_sql : SqliteValue → Except String F64
  | .double v => .ok v
  | .null => .error "Unexpected null for non-null column"
  | .other desc => .error desc

/-- Modelled from the spec: the engine's primitive encoder
`<f64 as ToSql<Double, Sqlite>>::to_sql`: emits the double column value,
totally. -/
def f64_to_sql (v : F64) : Except String SqliteValue :=
  .ok (.double v)

/-- Embeds `impl ToSql<sql_types::Currency, Sqlite> for Currency`
(src/diesel2.rs lines 17-21): forward `self.value` to the engine's f64
encoder, nothing else. -/
def Currency.to_sql (c : Currency) : Except String SqliteValue :=
  f64_to_sql c.value

/-- Embeds `impl FromSql<sql_types::Currency, Sqlite> for Currency`
(src/diesel2.rs lines 23-28): decode the f64 (propagating failure via `?`),
then `Ok(Currency::new_float(value, None))`. -/
def Currency.from_sql (value : SqliteValue) : Except String Currency :=
  match f64_from_sql value with
  | .ok v => .ok (Currency.new_float v none)
  | .error e => .error e

/-- Modelled from the spec: at a nullable call site the engine signals SQL
NULL as "no value" without invoking the Currency decoder; otherwise the
column decodes through `Currency.from_sql`. -/
def from_sql_nullable (value : SqliteValue) : Except String (Option Currency) :=
  match value with
  | .null => .ok none
  | v =>
      match Currency.from_sql v with
      | .ok c => .ok (some c)
      | .error e => .error e

/-! ### Helper lemmas about the digit renderers -/

theorem natToDigitsAux_mem (fuel n : Nat) :
    ∀ c ∈ natToDigitsAux fuel n, ∃ d, d < 10 ∧ c = digitChar d := by
  induction fuel generalizing n with
  | zero => simp [natToDigitsAux]
  | succ f ih =>
    intro c hc
    rw [natToDigitsAux] at hc
    by_cases h : n < 10
    · rw [if_pos h] at hc
      simp only [List.mem_singleton] at hc
      exact ⟨n, h, hc⟩
    · rw [if_neg h] at hc
      rcases List.mem_append.mp hc with h1 | h2
      · exact ih (n / 10) c h1
      · simp only [List.mem_singleton] at h2
        exact ⟨n % 10, Nat.mod_lt _ (by norm_num), h2⟩

theorem natToDigits_mem (n : Nat) :
    ∀ c ∈ natToDigits n, ∃ d, d < 10 ∧ c = digitChar d :=
  natToDigitsAux_mem (n + 1) n

theorem natToDigits_ne_nil (n : Nat) : natToDigits n ≠ [] := by
  rw [natToDigits, natToDigitsAux]
  by_cases h : n < 10
  · rw [if_pos h]; simp
  · rw [if_neg h]; simp

theorem fracDigitsList_length (f s : Nat) : (fracDigitsList f s).length = s := by
  simp [fracDigitsList]

theorem fracDigitsList_mem (f s : Nat) :
    ∀ c ∈ fracDigitsList f s, ∃ d, d < 10 ∧ c = digitChar d := by
  intro c hc
  simp only [fracDigitsList, List.mem_map, List.mem_range] at hc
  obtain ⟨i, _, rfl⟩ := hc
  exact ⟨_, Nat.mod_lt _ (by norm_num), rfl⟩

theorem digitChar_beq_dot (d : Nat) (h : d < 10) : (digitChar d == '.') = false := by
  interval_cases d <;> decide

theorem digitChar_beq_dash (d : Nat) (h : d < 10) : (digitChar d == '-') = false := by
  interval_cases d <;> decide

theorem takeWhile_append_cons {α : Type} (p : α → Bool) (l : List α) (x : α) (r : List α)
    (hl : ∀ c ∈ l, p c = true) (hx : p x = false) :
    (l ++ x :: r).takeWhile p = l := by
  induction l with
  | nil => simp [List.takeWhile_cons, hx]
  | cons a t ih =>
    rw [List.cons_append, List.takeWhile_cons, hl a (List.mem_cons_self a t)]
    rw [if_pos rfl, ih fun c hc => hl c (List.mem_cons_of_mem a hc)]

/-- Rendering a finite Currency, rephrased through the integer produced by the
half-away-from-zero rounding step. -/
theorem to_string_of_round (q : ℚ) (s : Nat) (n : Int)
    (h : roundHalfAwayFromZero (q * 10 ^ s) = n) :
    (Currency.mk (.finite q) s).to_string =
      String.mk ((if n < 0 then ['-'] else []) ++
        natToDigits (n.natAbs / 10 ^ s) ++ '.' :: fracDigitsList (n.natAbs % 10 ^ s) s) := by
  simp only [Currency.to_string, Currency.renderFinite, h]

/-! ### Claim theorems -/

/-- C1: for every finite float64 `v` (and any construction scale), converting
the Currency to storage and back yields a Currency whose `value` field equals
`v` exactly: the encode/decode of the raw float through the adapter is
lossless. -/
theorem storage_round_trip_lossless (q : ℚ) (s : Option Nat) :
    ∃ col c, Currency.to_sql (Currency.new_float (.finite q) s) = .ok col ∧
      Currency.from_sql col = .ok c ∧ c.value = .finite q :=
  ⟨.double (.finite q), Currency.new_float (.finite q) none, rfl, rfl, rfl⟩

/-- C2: whenever the engine's f64 decoder succeeds with `v`, the from-storage
conversion returns exactly `Currency::new_float(v, None)` — the reconstructed
Currency always carries the default scale. -/
theorem from_sql_returns_default_scale (col : SqliteValue) (v : F64)
    (h : f64_from_sql col = .ok v) :
    Currency.from_sql col = .ok (Currency.new_float v none) := by
  simp [Currency.from_sql, h]

/-- Witness for C2 at the concrete column value `double 5`. -/
theorem from_sql_returns_default_scale_witness :
    Currency.from_sql (.double (.finite 5)) = .ok (Currency.new_float (.finite 5) none) :=
  from_sql_returns_default_scale (.double (.finite 5)) (.finite 5) rfl

/-- C3: the to-storage conversion emits the engine's double encoding of
`c.value` unchanged — no rounding or other transformation — and it never
fails for any Currency. -/
theorem to_sql_emits_value_unchanged (c : Currency) :
    Currency.to_sql c = .ok (.double c.value) :=
  rfl

/-- C5: a SQL NULL column value at a nullable call site decodes to "no
value" with no error; the Currency decoding branch (and hence the Currency
constructor) is bypassed entirely by the NULL branch. -/
theorem null_decodes_to_no_value :
    from_sql_nullable .null = .ok none :=
  rfl

/-- C6: the from-storage conversion returns every failure of the engine's
f64 decoder unchanged, and succeeds whenever the f64 decode succeeds. -/
theorem from_sql_propagates_engine_errors (col : SqliteValue) :
    (∀ e, f64_from_sql col = .error e → Currency.from_sql col = .error e) ∧
    (∀ v, f64_from_sql col = .ok v → ∃ c, Currency.from_sql col = .ok c) := by
  constructor
  · intro e h
    simp [Currency.from_sql, h]
  · intro v h
    exact ⟨Currency.new_float v none, by simp [Currency.from_sql, h]⟩

/-- Witness for C6 at a concrete malformed column value. -/
theorem from_sql_propagates_engine_errors_witness :
    Currency.from_sql (.other "malformed") = .error "malformed" :=
  (from_sql_propagates_engine_errors (.other "malformed")).1 "malformed" rfl

/-- C7: Currency equality holds iff both the values and the scales agree,
and the storage round trip of default-scale Currencies built from `200.0`
and `0.10` returns Currencies equal to the originals. -/
theorem currency_equality_and_insert_select :
    (∀ a b : Currency, a = b ↔ a.value = b.value ∧ a.scale = b.scale) ∧
    (Currency.to_sql (Currency.new_float (.finite (200 : ℚ)) none)).bind Currency.from_sql
        = .ok (Currency.new_float (.finite (200 : ℚ)) none) ∧
    (Currency.to_sql (Currency.new_float (.finite (0.10 : ℚ)) none)).bind Currency.from_sql
        = .ok (Currency.new_float (.finite (0.10 : ℚ)) none) := by
  refine ⟨?_, rfl, rfl⟩
  intro a b
  cases a
  cases b
  simp

/-- C8: `new_float` accepts every float64 (negative and non-finite included)
and every optional scale without validation or error path, producing the
Currency with exactly that value and the given scale (default 2). -/
theorem new_float_total_no_validation (v : F64) (s : Option Nat) :
    (Currency.new_float v s).value = v ∧ (Currency.new_float v s).scale = s.getD 2 :=
  ⟨rfl, rfl⟩

/-- C9: a Currency built with an explicit non-default scale `s ≠ 2` round
trips through storage to a Currency with scale 2, which is not equal to the
original under value-and-scale equality. -/
theorem nondefault_scale_lost_in_round_trip (q : ℚ) (s : Nat) (h : s ≠ 2) :
    ∃ c, (Currency.to_sql (Currency.new_float (.finite q) (some s))).bind Currency.from_sql
        = .ok c ∧ c.scale = 2 ∧ c ≠ Currency.new_float (.finite q) (some s) := by
  refine ⟨Currency.new_float (.finite q) none, rfl, rfl, ?_⟩
  intro hc
  exact h (congrArg Currency.scale hc).symm

/-- Witness for C9 at `q = 1`, `s = 6`. -/
theorem nondefault_scale_lost_in_round_trip_witness :
    ∃ c, (Currency.to_sql (Currency.new_float (.finite 1) (some 6))).bind Currency.from_sql
        = .ok c ∧ c.scale = 2 ∧ c ≠ Currency.new_float (.finite 1) (some 6) :=
  nondefault_scale_lost_in_round_trip 1 6 (by decide)

/-- C10: the from-storage conversion performs no finiteness check: NaN and
the infinities (and every other double) are wrapped into a Currency
unchecked. -/
theorem from_sql_accepts_nonfinite :
    Currency.from_sql (.double .nan) = .ok (Currency.new_float .nan none) ∧
    Currency.from_sql (.double .inf) = .ok (Currency.new_float .inf none) ∧
    Currency.from_sql (.double .neginf) = .ok (Currency.new_float .neginf none) ∧
    ∀ v : F64, Currency.from_sql (.double v) = .ok (Currency.new_float v none) :=
  ⟨rfl, rfl, rfl, fun _ => rfl⟩

/-- C4: for every finite Currency at scale `s`, `to_string` renders exactly
`s` fractional digits after the decimal point, carries a single leading `-`
exactly when the half-away-from-zero rounding of `value * 10 ^ s` is
negative (and no `-` elsewhere), and at the default scale 2 the inputs
`9999999.99999`, `0.000001` and `-123.456` render as `"10000000.00"`,
`"0.00"` and `"-123.46"`. -/
theorem currency_to_string_format (q : ℚ) (s : Nat) :
    (((Currency.mk (.finite q) s).to_string.data.reverse.takeWhile (fun c => c != '.')).length
        = s) ∧
    ((Currency.mk (.finite q) s).to_string.data.head? = some '-' ↔
      roundHalfAwayFromZero (q * 10 ^ s) < 0) ∧
    (((Currency.mk (.finite q) s).to_string.data.filter (fun c => c == '-')).length =
      if roundHalfAwayFromZero (q * 10 ^ s) < 0 then 1 else 0) ∧
    (Currency.new_float (.finite (9999999.99999 : ℚ)) none).to_string = "10000000.00" ∧
    (Currency.new_float (.finite (0.000001 : ℚ)) none).to_string = "0.00" ∧
    (Currency.new_float (.finite (-123.456 : ℚ)) none).to_string = "-123.46" := by
  set m := roundHalfAwayFromZero (q * 10 ^ s) with hm
  have hdata : (Currency.mk (.finite q) s).to_string.data =
      (if m < 0 then ['-'] else []) ++
        natToDigits (m.natAbs / 10 ^ s) ++ '.' :: fracDigitsList (m.natAbs % 10 ^ s) s :=
    congrArg String.data (to_string_of_round q s m hm.symm)
  have hfr : ∀ c ∈ (fracDigitsList (m.natAbs % 10 ^ s) s).reverse, (c != '.') = true := by
    intro c hc
    obtain ⟨d, hd, rfl⟩ := fracDigitsList_mem _ _ c (List.mem_reverse.mp hc)
    simp [bne, digitChar_beq_dot d hd]
  have hnd : ∀ c ∈ natToDigits (m.natAbs / 10 ^ s), c ≠ '-' := by
    intro c hc
    obtain ⟨d, hd, rfl⟩ := natToDigits_mem _ c hc
    exact beq_eq_false_iff_ne.mp (digitChar_beq_dash d hd)
  refine ⟨?_, ?_, ?_, ?_, ?_, ?_⟩
  · rw [hdata]
    simp only [List.reverse_append, List.reverse_cons, List.append_assoc,
      List.singleton_append, List.cons_append]
    rw [takeWhile_append_cons _ _ '.' _ hfr (by decide)]
    simp [fracDigitsList_length]
  · by_cases hneg : m < 0
    · rw [hdata, if_pos hneg]
      simp [hneg]
    · rw [hdata, if_neg hneg]
      obtain ⟨a, t, hat⟩ := List.exists_cons_of_ne_nil (natToDigits_ne_nil (m.natAbs / 10 ^ s))
      have ha : a ≠ '-' := hnd a (hat ▸ List.mem_cons_self a t)
      rw [List.nil_append, hat, List.cons_append]
      simp only [List.head?_cons, Option.some.injEq]
      exact ⟨fun h => absurd h ha, fun h => absurd h hneg⟩
  · rw [hdata]
    have h1 : (natToDigits (m.natAbs / 10 ^ s)).filter (fun c => c == '-') = [] := by
      rw [List.filter_eq_nil_iff]
      intro a haa
      simp only [Bool.not_eq_true]
      exact beq_eq_false_iff_ne.mpr (hnd a haa)
    have h2 : (fracDigitsList (m.natAbs % 10 ^ s) s).filter (fun c => c == '-') = [] := by
      rw [List.filter_eq_nil_iff]
      intro a haa
      obtain ⟨d, hd, rfl⟩ := fracDigitsList_mem _ _ a haa
      simp [digitChar_beq_dash d hd]
    rw [List.filter_append, List.filter_append, h1, List.filter_cons, h2]
    by_cases hneg : m < 0 <;> simp [hneg]
  · have h : roundHalfAwayFromZero ((9999999.99999 : ℚ) * 10 ^ 2) = 1000000000 := by
      rw [roundHalfAwayFromZero, if_pos (by norm_num)]
      norm_num
    exact (to_string_of_round _ 2 _ h).trans (by decide)
  · have h : roundHalfAwayFromZero ((0.000001 : ℚ) * 10 ^ 2) = 0 := by
      rw [roundHalfAwayFromZero, if_pos (by norm_num)]
      norm_num
    exact (to_string_of_round _ 2 _ h).trans (by decide)
  · have h : roundHalfAwayFromZero ((-123.456 : ℚ) * 10 ^ 2) = -12346 := by
      rw [roundHalfAwayFromZero, if_neg (by norm_num)]
      norm_num
    exact (to_string_of_round _ 2 _ h).trans (by decide)
